import Mathlib

/-!
Verification development for the LogBuddy service (src/main.py).

The development shallowly embeds the core of the service: the JSON
payload model with its serialization (Python json.dumps with its default
settings: ensure_ascii, separators comma-space and colon-space), the
append-only event store backed by the log_entries table, and the public
operations create_log_entry, get_logs, get_analytics, export_logs_csv and
the webhook ingestion path handle_webhook / process_webhook_data.

Machine integers do not overflow in the modeled fragment (ids are
unbounded Python ints in SQLite), so ids are Nat and time instants are
Int (seconds; datetime values are totally ordered instants, and the
24-hour window is 86400 seconds).
-/

namespace LogBuddy

/-! ## JSON values

A JSON payload (Python dict / list / scalar as accepted by json.dumps).
Strings are sequences of unicode scalar values (Lean Char).  Numbers are
modeled as integers; float-valued payloads are outside the model.
Object key order is the Python dict insertion order, which json.dumps
preserves. -/

mutual

inductive Json where
  | null : Json
  | bool (b : Bool) : Json
  | num (n : Int) : Json
  | str (s : List Char) : Json
  | arr (a : JsonArr) : Json
  | obj (o : JsonObj) : Json

inductive JsonArr where
  | nil : JsonArr
  | cons (hd : Json) (tl : JsonArr) : JsonArr

inductive JsonObj where
  | nil : JsonObj
  | cons (key : List Char) (val : Json) (tl : JsonObj) : JsonObj

end

/-- Left curly brace character (written via its code point). -/
def lbrace : Char := Char.ofNat 123

/-- Right curly brace character (written via its code point). -/
def rbrace : Char := Char.ofNat 125

/-- Lowercase hexadecimal digit character for a value below 16,
as produced by Python's %04x formatting inside json.dumps. -/
def hexDigit (n : Nat) : Char :=
  if n < 10 then Char.ofNat (48 + n) else Char.ofNat (87 + n)

/-- Four lowercase hex digits of a value below 65536. -/
def hex4 (n : Nat) : List Char :=
  [hexDigit (n / 4096 % 16), hexDigit (n / 256 % 16), hexDigit (n / 16 % 16), hexDigit (n % 16)]

/-- Escaping of a single character inside a JSON string literal, following
json.dumps with ensure_ascii: two-character escapes for quote, backslash
and the named control characters, a backslash-u escape for other control
characters and all non-ASCII characters, and a UTF-16 surrogate pair of
backslash-u escapes for characters beyond the basic multilingual plane. -/
def escapeChar (c : Char) : List Char :=
  if c = '\"' then ['\\', '\"']
  else if c = '\\' then ['\\', '\\']
  else if c = Char.ofNat 8 then ['\\', 'b']
  else if c = Char.ofNat 9 then ['\\', 't']
  else if c = Char.ofNat 10 then ['\\', 'n']
  else if c = Char.ofNat 12 then ['\\', 'f']
  else if c = Char.ofNat 13 then ['\\', 'r']
  else if c.toNat < 32 ∨ 126 < c.toNat then
    if c.toNat < 65536 then '\\' :: 'u' :: hex4 c.toNat
    else ('\\' :: 'u' :: hex4 (55296 + (c.toNat - 65536) / 1024)) ++
         ('\\' :: 'u' :: hex4 (56320 + (c.toNat - 65536) % 1024))
  else [c]

/-- Escaping of the body of a JSON string literal. -/
def escapeString : List Char → List Char
  | [] => []
  | c :: cs => escapeChar c ++ escapeString cs

/-- Decimal digits of a natural number, most significant first; the fuel
argument only bounds the recursion and any fuel above the number itself
is enough. -/
def natDigitsAux : Nat → Nat → List Char
  | 0, _ => []
  | fuel + 1, n =>
    if n < 10 then [Char.ofNat (48 + n)]
    else natDigitsAux fuel (n / 10) ++ [Char.ofNat (48 + n % 10)]

/-- Decimal digits of a natural number, most significant first. -/
def natDigits (n : Nat) : List Char := natDigitsAux (n + 1) n

/-- Serialization of an integer (Python repr of an int). -/
def dumpInt (n : Int) : List Char :=
  if n < 0 then '-' :: natDigits (-n).toNat else natDigits n.toNat

mutual

/-- Serialization of a JSON value: json.dumps with its default settings
(ensure_ascii, item separator comma-space, key separator colon-space). -/
def dumpJson : Json → List Char
  | .null => ['n', 'u', 'l', 'l']
  | .bool b => if b then ['t', 'r', 'u', 'e'] else ['f', 'a', 'l', 's', 'e']
  | .num n => dumpInt n
  | .str s => '\"' :: (escapeString s ++ ['\"'])
  | .arr .nil => ['[', ']']
  | .arr (.cons h t) => '[' :: (dumpJson h ++ dumpArrRest t ++ [']'])
  | .obj .nil => [lbrace, rbrace]
  | .obj (.cons k v t) =>
      lbrace :: ('\"' :: (escapeString k ++ ['\"', ':', ' ']) ++ dumpJson v ++ dumpObjRest t ++ [rbrace])

/-- Serialization of the remaining elements of an array, each preceded by
the item separator comma-space. -/
def dumpArrRest : JsonArr → List Char
  | .nil => []
  | .cons h t => ',' :: ' ' :: (dumpJson h ++ dumpArrRest t)

/-- Serialization of the remaining members of an object, each preceded by
the item separator comma-space. -/
def dumpObjRest : JsonObj → List Char
  | .nil => []
  | .cons k v t => ',' :: ' ' :: ('\"' :: (escapeString k ++ ['\"', ':', ' ']) ++ dumpJson v ++ dumpObjRest t)

end

/-! ## JSON parsing

A deserializer inverting dumpJson, our model of json.loads on the
canonical serializer output. -/

/-- Value of one hexadecimal digit character. -/
def parseHexDigit (c : Char) : Option Nat :=
  if 48 ≤ c.toNat ∧ c.toNat ≤ 57 then some (c.toNat - 48)
  else if 97 ≤ c.toNat ∧ c.toNat ≤ 102 then some (c.toNat - 87)
  else if 65 ≤ c.toNat ∧ c.toNat ≤ 70 then some (c.toNat - 55)
  else none

/-- Character named by a two-character escape sequence. -/
def unescapeSimple (e : Char) : Option Char :=
  if e = '\"' then some '\"'
  else if e = '\\' then some '\\'
  else if e = '/' then some '/'
  else if e = 'b' then some (Char.ofNat 8)
  else if e = 't' then some (Char.ofNat 9)
  else if e = 'n' then some (Char.ofNat 10)
  else if e = 'f' then some (Char.ofNat 12)
  else if e = 'r' then some (Char.ofNat 13)
  else none

/-- Read four hexadecimal digit characters. -/
def hex4At : List Char → Option (Nat × List Char)
  | a :: b :: c :: d :: rest =>
    match parseHexDigit a, parseHexDigit b, parseHexDigit c, parseHexDigit d with
    | some x, some y, some z, some w => some (((x * 16 + y) * 16 + z) * 16 + w, rest)
    | _, _, _, _ => none
  | _ => none

/-- Outcome of scanning one unit of a JSON string literal body: the
closing quote, one decoded character, or a malformed input. -/
inductive ScanR where
  | close (rest : List Char)
  | ch (c : Char) (rest : List Char)
  | bad

/-- Decode the low-surrogate escape that must follow a high surrogate
with value n, recombining the pair into one character. -/
def scanLow (n : Nat) : List Char → ScanR
  | b1 :: u1 :: rest4 =>
    if b1 = '\\' ∧ u1 = 'u' then
      match hex4At rest4 with
      | some p =>
        if 56320 ≤ p.1 ∧ p.1 ≤ 57343 then
          .ch (Char.ofNat ((n - 55296) * 1024 + (p.1 - 56320) + 65536)) p.2
        else .bad
      | none => .bad
    else .bad
  | _ => .bad

/-- Decode a backslash-u escape given the input after the u. -/
def scanEscU (rest2 : List Char) : ScanR :=
  match hex4At rest2 with
  | some p =>
    if 55296 ≤ p.1 ∧ p.1 ≤ 56319 then scanLow p.1 p.2
    else .ch (Char.ofNat p.1) p.2
  | none => .bad

/-- Decode one escape sequence given the input after the backslash. -/
def scanEsc : List Char → ScanR
  | [] => .bad
  | e :: rest2 =>
    if e = 'u' then scanEscU rest2
    else
      match unescapeSimple e with
      | some c2 => .ch c2 rest2
      | none => .bad

/-- Scan one unit of a JSON string literal body. -/
def scanUnit : List Char → ScanR
  | [] => .bad
  | c :: rest =>
    if c = '\"' then .close rest
    else if c = '\\' then scanEsc rest
    else .ch c rest

/-- Parse the body of a JSON string literal up to and including the
closing quote, returning the string contents and the remaining input.
The fuel only bounds the recursion; any fuel above the input length is
enough, since every scanned unit consumes at least one character. -/
def parseStrBody : Nat → List Char → Option (List Char × List Char)
  | 0, _ => none
  | fuel + 1, input =>
    match scanUnit input with
    | .close rest => some ([], rest)
    | .ch c rest => (parseStrBody fuel rest).map (fun p => (c :: p.1, p.2))
    | .bad => none

/-- Parse a maximal run of decimal digits, extending an accumulator. -/
def parseDigits : List Char → Nat → Nat × List Char
  | [], acc => (acc, [])
  | c :: rest, acc =>
    if c.isDigit then parseDigits rest (acc * 10 + (c.toNat - 48)) else (acc, c :: rest)

/-- Parse an integer: an optional minus sign followed by at least one
decimal digit. -/
def parseInt : List Char → Option (Int × List Char)
  | [] => none
  | c :: rest =>
    if c = '-' then
      match rest with
      | [] => none
      | c2 :: rest2 =>
        if c2.isDigit then
          let p := parseDigits (c2 :: rest2) 0
          some (-(p.1 : Int), p.2)
        else none
    else if c.isDigit then
      let p := parseDigits (c :: rest) 0
      some ((p.1 : Int), p.2)
    else none

/-- Strip an expected literal run of characters from the input. -/
def stripPre : List Char → List Char → Option (List Char)
  | [], input => some input
  | _ :: _, [] => none
  | p :: ps, c :: cs => if c = p then stripPre ps cs else none

mutual

/-- Parse one JSON value.  The fuel bounds the nesting of the recursion;
any fuel at least the node count of the value suffices. -/
def parseJson : Nat → List Char → Option (Json × List Char)
  | 0, _ => none
  | fuel + 1, input =>
    match input with
    | [] => none
    | c :: rest =>
      if c = 'n' then (stripPre ['u', 'l', 'l'] rest).map (fun r => (.null, r))
      else if c = 't' then (stripPre ['r', 'u', 'e'] rest).map (fun r => (.bool true, r))
      else if c = 'f' then (stripPre ['a', 'l', 's', 'e'] rest).map (fun r => (.bool false, r))
      else if c = '\"' then (parseStrBody (rest.length + 1) rest).map (fun p => (.str p.1, p.2))
      else if c = '[' then
        match rest with
        | [] => none
        | c2 :: rest2 =>
          if c2 = ']' then some (.arr .nil, rest2)
          else
            match parseJson fuel (c2 :: rest2) with
            | some jp => (parseArrRest fuel jp.2).map (fun p => (.arr (.cons jp.1 p.1), p.2))
            | none => none
      else if c = lbrace then
        match rest with
        | [] => none
        | c2 :: rest2 =>
          if c2 = rbrace then some (.obj .nil, rest2)
          else if c2 = '\"' then
            match parseStrBody (rest2.length + 1) rest2 with
            | some kp =>
              match stripPre [':', ' '] kp.2 with
              | some rest4 =>
                match parseJson fuel rest4 with
                | some vp => (parseObjRest fuel vp.2).map (fun p => (.obj (.cons kp.1 vp.1 p.1), p.2))
                | none => none
              | none => none
            | none => none
          else none
      else
        match parseInt input with
        | some p => some (.num p.1, p.2)
        | none => none

/-- Parse the elements of an array after the first one: a closing bracket,
or a comma-space separator followed by a value and more elements. -/
def parseArrRest : Nat → List Char → Option (JsonArr × List Char)
  | 0, _ => none
  | fuel + 1, input =>
    match input with
    | [] => none
    | c :: rest =>
      if c = ']' then some (.nil, rest)
      else if c = ',' then
        match rest with
        | ' ' :: rest2 =>
          match parseJson fuel rest2 with
          | some jp => (parseArrRest fuel jp.2).map (fun p => (.cons jp.1 p.1, p.2))
          | none => none
        | _ => none
      else none

/-- Parse the members of an object after the first one: a closing brace,
or a comma-space separator followed by a quoted key and the rest of the
member. -/
def parseObjRest : Nat → List Char → Option (JsonObj × List Char)
  | 0, _ => none
  | fuel + 1, input =>
    match input with
    | [] => none
    | c :: rest =>
      if c = rbrace then some (.nil, rest)
      else if c = ',' then
        match rest with
        | ' ' :: '\"' :: rest2 =>
          match parseStrBody (rest2.length + 1) rest2 with
          | some kp =>
            match stripPre [':', ' '] kp.2 with
            | some rest4 =>
              match parseJson fuel rest4 with
              | some vp => (parseObjRest fuel vp.2).map (fun p => (.cons kp.1 vp.1 p.1, p.2))
              | none => none
            | none => none
          | none => none
        | _ => none
      else none

end

/-- Deserialization of a whole input: json.loads, requiring the value to
span the entire input. -/
def loads (s : List Char) : Option Json :=
  match parseJson (s.length + 1) s with
  | some (j, []) => some j
  | _ => none

/-- Whether the input begins with a decimal digit (the only way a
maximal-munch integer parse could consume past its production). -/
def digitStart : List Char → Bool
  | [] => false
  | c :: _ => c.isDigit

mutual

/-- Node count of a JSON value, a lower bound for the parsing fuel. -/
def jsize : Json → Nat
  | .null => 1
  | .bool _ => 1
  | .num _ => 1
  | .str _ => 1
  | .arr a => 1 + asize a
  | .obj o => 1 + osize o

/-- Node count of the elements of an array. -/
def asize : JsonArr → Nat
  | .nil => 1
  | .cons h t => jsize h + asize t

/-- Node count of the members of an object. -/
def osize : JsonObj → Nat
  | .nil => 1
  | .cons _ v t => jsize v + osize t

end

/-! ## Round-trip lemmas, characters and integers -/

theorem char_eq_iff_toNat (a b : Char) : a = b ↔ a.toNat = b.toNat := by
  constructor
  · intro h; rw [h]
  · intro h; exact Char.ext (UInt32.ext h)

theorem char_isDigit_iff (c : Char) : c.isDigit = true ↔ (48 ≤ c.toNat ∧ c.toNat ≤ 57) := by
  simp only [Char.isDigit, ge_iff_le, Bool.and_eq_true, decide_eq_true_eq]
  exact Iff.rfl

theorem char_toNat_valid (c : Char) : c.toNat < 55296 ∨ (57343 < c.toNat ∧ c.toNat < 1114112) := c.valid

theorem toNat_ofNat_digit (n : Nat) (h : n < 10) : (Char.ofNat (48 + n)).toNat = 48 + n := by
  interval_cases n <;> rfl

theorem parseHexDigit_hexDigit : ∀ n, n < 16 → parseHexDigit (hexDigit n) = some n := by decide

theorem jsize_pos : ∀ j : Json, 1 ≤ jsize j := by
  intro j; cases j <;> simp [jsize]

theorem asize_pos : ∀ a : JsonArr, 1 ≤ asize a := by
  intro a
  cases a with
  | nil => simp [asize]
  | cons h t => simp [asize]; have := jsize_pos h; omega

theorem osize_pos : ∀ o : JsonObj, 1 ≤ osize o := by
  intro o
  cases o with
  | nil => simp [osize]
  | cons k v t => simp [osize]; have := jsize_pos v; omega

/-- Evaluation of the digit-string value accumulated by parseDigits. -/
def digitsValFrom (acc : Nat) : List Char → Nat
  | [] => acc
  | c :: cs => digitsValFrom (acc * 10 + (c.toNat - 48)) cs

theorem natDigitsAux_lt (fuel n : Nat) (h : n < 10) :
    natDigitsAux (fuel + 1) n = [Char.ofNat (48 + n)] := by
  rw [natDigitsAux, if_pos h]

theorem natDigitsAux_ge (fuel n : Nat) (h : ¬ n < 10) :
    natDigitsAux (fuel + 1) n = natDigitsAux fuel (n / 10) ++ [Char.ofNat (48 + n % 10)] := by
  rw [natDigitsAux, if_neg h]

theorem digitsValFrom_nil (a : Nat) : digitsValFrom a [] = a := rfl

theorem digitsValFrom_cons (a : Nat) (c : Char) (cs : List Char) :
    digitsValFrom a (c :: cs) = digitsValFrom (a * 10 + (c.toNat - 48)) cs := rfl

theorem digitsValFrom_append (l1 l2 : List Char) (a : Nat) :
    digitsValFrom a (l1 ++ l2) = digitsValFrom (digitsValFrom a l1) l2 := by
  induction l1 generalizing a with
  | nil => rfl
  | cons c cs ih => rw [List.cons_append, digitsValFrom_cons, digitsValFrom_cons, ih]

theorem natDigitsAux_spec :
    ∀ (fuel n : Nat), n < fuel →
      natDigitsAux fuel n ≠ [] ∧
      (∀ c ∈ natDigitsAux fuel n, c.isDigit = true) ∧
      (∀ acc, digitsValFrom acc (natDigitsAux fuel n) = acc * 10 ^ (natDigitsAux fuel n).length + n)
  | 0, n, h => absurd h (by omega)
  | fuel + 1, n, h => by
    by_cases h10 : n < 10
    · rw [natDigitsAux_lt fuel n h10]
      refine ⟨by simp, ?_, ?_⟩
      · intro c hc
        simp only [List.mem_singleton] at hc
        subst hc
        rw [char_isDigit_iff, toNat_ofNat_digit n h10]
        omega
      · intro acc
        rw [digitsValFrom_cons, digitsValFrom_nil, toNat_ofNat_digit n h10]
        simp only [List.length_singleton, pow_one]
        omega
    · obtain ⟨hne, hdig, hval⟩ := natDigitsAux_spec fuel (n / 10) (by omega)
      have hm : n % 10 < 10 := by omega
      rw [natDigitsAux_ge fuel n h10]
      refine ⟨by simp, ?_, ?_⟩
      · intro c hc
        rcases List.mem_append.mp hc with hc | hc
        · exact hdig c hc
        · rw [List.mem_singleton] at hc
          subst hc
          rw [char_isDigit_iff, toNat_ofNat_digit _ hm]
          omega
      · intro acc
        rw [digitsValFrom_append, hval acc, digitsValFrom_cons, digitsValFrom_nil,
          toNat_ofNat_digit _ hm]
        simp only [List.length_append, List.length_singleton]
        rw [pow_succ]
        ring_nf
        omega

theorem natDigits_ne_nil (n : Nat) : natDigits n ≠ [] :=
  (natDigitsAux_spec (n + 1) n (by omega)).1

theorem natDigits_all_digits (n : Nat) : ∀ c ∈ natDigits n, c.isDigit = true :=
  (natDigitsAux_spec (n + 1) n (by omega)).2.1

theorem digitsValFrom_natDigits (n : Nat) : digitsValFrom 0 (natDigits n) = n := by
  have := (natDigitsAux_spec (n + 1) n (by omega)).2.2 0
  simpa using this

theorem parseDigits_cons (c : Char) (rest : List Char) (acc : Nat) :
    parseDigits (c :: rest) acc =
      if c.isDigit then parseDigits rest (acc * 10 + (c.toNat - 48)) else (acc, c :: rest) := rfl

theorem parseDigits_digits :
    ∀ (ds : List Char), (∀ c ∈ ds, c.isDigit = true) →
      ∀ (rest : List Char) (acc : Nat),
        parseDigits (ds ++ rest) acc = parseDigits rest (digitsValFrom acc ds)
  | [], _, rest, acc => rfl
  | c :: cs, h, rest, acc => by
    have hc : c.isDigit = true := h c (by simp)
    rw [List.cons_append, parseDigits_cons, if_pos hc, digitsValFrom_cons]
    exact parseDigits_digits cs (fun x hx => h x (by simp [hx])) rest _

theorem parseDigits_stop (rest : List Char) (acc : Nat) (h : digitStart rest = false) :
    parseDigits rest acc = (acc, rest) := by
  cases rest with
  | nil => rfl
  | cons c cs =>
    simp only [digitStart] at h
    rw [parseDigits_cons, if_neg (by simp [h])]

theorem natDigits_cons (n : Nat) : ∃ c t, natDigits n = c :: t ∧ c.isDigit = true := by
  cases hd : natDigits n with
  | nil => exact absurd hd (natDigits_ne_nil n)
  | cons c t =>
    refine ⟨c, t, rfl, ?_⟩
    have := natDigits_all_digits n
    rw [hd] at this
    exact this c (by simp)

theorem parseDigits_natDigits (m : Nat) (rest : List Char) (h : digitStart rest = false) :
    parseDigits (natDigits m ++ rest) 0 = (m, rest) := by
  rw [parseDigits_digits _ (natDigits_all_digits _) rest 0, parseDigits_stop rest _ h,
    digitsValFrom_natDigits]

theorem parseInt_dumpInt (n : Int) (rest : List Char) (h : digitStart rest = false) :
    parseInt (dumpInt n ++ rest) = some (n, rest) := by
  by_cases hn : n < 0
  · obtain ⟨c, t, hct, hdig⟩ := natDigits_cons (-n).toNat
    rw [dumpInt, if_pos hn, List.cons_append, hct, List.cons_append]
    simp only [parseInt, show (('-' : Char) = '-') = True by simp, if_true, hdig]
    rw [← List.cons_append, ← hct, parseDigits_natDigits _ rest h]
    have hv : -((((-n).toNat : Nat) : Int)) = n := by omega
    exact congrArg (fun z => some (z, rest)) hv
  · obtain ⟨c, t, hct, hdig⟩ := natDigits_cons n.toNat
    have hc48 : 48 ≤ c.toNat ∧ c.toNat ≤ 57 := (char_isDigit_iff c).mp hdig
    have hcm : ¬ c = '-' := by
      rw [char_eq_iff_toNat]
      have h45 : ('-' : Char).toNat = 45 := rfl
      omega
    rw [dumpInt, if_neg hn, hct, List.cons_append]
    simp only [parseInt, hcm, if_false, hdig, if_true]
    rw [← List.cons_append, ← hct, parseDigits_natDigits _ rest h]
    have hv : ((n.toNat : Nat) : Int) = n := by omega
    exact congrArg (fun z => some (z, rest)) hv

/-! ## Round-trip lemmas, strings -/

theorem hex4At_cons (a b c d : Char) (X : List Char) :
    hex4At (a :: b :: c :: d :: X) =
      match parseHexDigit a, parseHexDigit b, parseHexDigit c, parseHexDigit d with
      | some x, some y, some z, some w => some (((x * 16 + y) * 16 + z) * 16 + w, X)
      | _, _, _, _ => none := rfl

theorem hex4At_hex4 (n : Nat) (X : List Char) (h : n < 65536) :
    hex4At (hex4 n ++ X) = some (n, X) := by
  rw [hex4]
  simp only [List.cons_append, List.nil_append]
  rw [hex4At_cons,
    parseHexDigit_hexDigit _ (Nat.mod_lt _ (by omega)),
    parseHexDigit_hexDigit _ (Nat.mod_lt _ (by omega)),
    parseHexDigit_hexDigit _ (Nat.mod_lt _ (by omega)),
    parseHexDigit_hexDigit _ (Nat.mod_lt _ (by omega))]
  have harith : ((n / 4096 % 16 * 16 + n / 256 % 16) * 16 + n / 16 % 16) * 16 + n % 16 = n := by
    omega
  exact congrArg (fun z => some (z, X)) harith

theorem scanUnit_cons (c : Char) (rest : List Char) :
    scanUnit (c :: rest) =
      if c = '\"' then .close rest
      else if c = '\\' then scanEsc rest
      else .ch c rest := rfl

theorem scanEsc_cons (e : Char) (rest2 : List Char) :
    scanEsc (e :: rest2) =
      if e = 'u' then scanEscU rest2
      else
        match unescapeSimple e with
        | some c2 => .ch c2 rest2
        | none => .bad := rfl

theorem scanLow_cons (n : Nat) (b1 u1 : Char) (rest4 : List Char) :
    scanLow n (b1 :: u1 :: rest4) =
      if b1 = '\\' ∧ u1 = 'u' then
        match hex4At rest4 with
        | some p =>
          if 56320 ≤ p.1 ∧ p.1 ≤ 57343 then
            .ch (Char.ofNat ((n - 55296) * 1024 + (p.1 - 56320) + 65536)) p.2
          else .bad
        | none => .bad
      else .bad := rfl

theorem scanEscU_eval (input : List Char) (n : Nat) (X : List Char)
    (h : hex4At input = some (n, X)) :
    scanEscU input =
      if 55296 ≤ n ∧ n ≤ 56319 then scanLow n X else .ch (Char.ofNat n) X := by
  rw [scanEscU, h]

theorem scanLow_eval (n : Nat) (rest4 : List Char) (m : Nat) (X : List Char)
    (h : hex4At rest4 = some (m, X)) :
    scanLow n ('\\' :: 'u' :: rest4) =
      if 56320 ≤ m ∧ m ≤ 57343 then
        .ch (Char.ofNat ((n - 55296) * 1024 + (m - 56320) + 65536)) X
      else .bad := by
  rw [scanLow_cons, if_pos ⟨rfl, rfl⟩, h]

theorem scanUnit_escapeChar (c : Char) (X : List Char) :
    scanUnit (escapeChar c ++ X) = .ch c X := by
  by_cases h1 : c = '\"'
  · subst h1; rfl
  by_cases h2 : c = '\\'
  · subst h2; rfl
  by_cases h3 : c = Char.ofNat 8
  · subst h3; rfl
  by_cases h4 : c = Char.ofNat 9
  · subst h4; rfl
  by_cases h5 : c = Char.ofNat 10
  · subst h5; rfl
  by_cases h6 : c = Char.ofNat 12
  · subst h6; rfl
  by_cases h7 : c = Char.ofNat 13
  · subst h7; rfl
  by_cases h8 : c.toNat < 32 ∨ 126 < c.toNat
  · have hval := char_toNat_valid c
    by_cases h9 : c.toNat < 65536
    · -- basic-multilingual-plane escape
      rw [escapeChar, if_neg h1, if_neg h2, if_neg h3, if_neg h4, if_neg h5, if_neg h6, if_neg h7,
        if_pos h8, if_pos h9]
      simp only [List.cons_append]
      rw [scanUnit_cons, if_neg (by decide), if_pos rfl, scanEsc_cons, if_pos rfl,
        scanEscU_eval _ _ _ (hex4At_hex4 c.toNat X h9), if_neg (by omega), Char.ofNat_toNat]
    · -- surrogate-pair escape
      have hbig : 65536 ≤ c.toNat ∧ c.toNat < 1114112 := by omega
      rw [escapeChar, if_neg h1, if_neg h2, if_neg h3, if_neg h4, if_neg h5, if_neg h6, if_neg h7,
        if_pos h8, if_neg h9]
      simp only [List.cons_append, List.append_assoc]
      rw [scanUnit_cons, if_neg (by decide), if_pos rfl, scanEsc_cons, if_pos rfl,
        scanEscU_eval _ _ _ (hex4At_hex4 _ _ (by omega)), if_pos (by omega),
        scanLow_eval _ _ _ _ (hex4At_hex4 _ _ (by omega)), if_pos (by omega)]
      have harith : (55296 + (c.toNat - 65536) / 1024 - 55296) * 1024 +
          (56320 + (c.toNat - 65536) % 1024 - 56320) + 65536 = c.toNat := by omega
      rw [harith]
      exact congrArg (fun z => ScanR.ch z X) (Char.ofNat_toNat c)
  · -- printable ascii character, kept literal
    rw [escapeChar, if_neg h1, if_neg h2, if_neg h3, if_neg h4, if_neg h5, if_neg h6, if_neg h7,
      if_neg h8]
    rw [List.cons_append, List.nil_append, scanUnit_cons, if_neg h1, if_neg h2]

theorem parseStrBody_succ (fuel : Nat) (input : List Char) :
    parseStrBody (fuel + 1) input =
      match scanUnit input with
      | .close rest => some ([], rest)
      | .ch c rest => (parseStrBody fuel rest).map (fun p => (c :: p.1, p.2))
      | .bad => none := rfl

theorem parseStrBody_escape :
    ∀ (s : List Char) (fuel : Nat) (rest : List Char), s.length < fuel →
      parseStrBody fuel (escapeString s ++ '\"' :: rest) = some (s, rest)
  | [], fuel, rest, h => by
    obtain ⟨f, rfl⟩ : ∃ f, fuel = f + 1 := ⟨fuel - 1, by omega⟩
    rfl
  | c :: s, fuel, rest, h => by
    obtain ⟨f, rfl⟩ : ∃ f, fuel = f + 1 := ⟨fuel - 1, by omega⟩
    have hs : s.length < f := by simpa using h
    rw [show escapeString (c :: s) = escapeChar c ++ escapeString s from rfl, List.append_assoc,
      parseStrBody_succ, scanUnit_escapeChar]
    show (parseStrBody f (escapeString s ++ '\"' :: rest)).map (fun p => (c :: p.1, p.2)) =
      some (c :: s, rest)
    rw [parseStrBody_escape s f rest hs]
    rfl

/-- Each character escapes to at least one character, so the escaped body
is at least as long as the string itself. -/
theorem length_le_escapeString : ∀ s : List Char, s.length ≤ (escapeString s).length
  | [] => Nat.le_refl 0
  | c :: s => by
    have h1 : 1 ≤ (escapeChar c).length := by
      rw [escapeChar]
      split_ifs <;> simp [hex4]
    have ih := length_le_escapeString s
    rw [show escapeString (c :: s) = escapeChar c ++ escapeString s from rfl]
    simp only [List.length_cons, List.length_append]
    omega

/-! ## Round-trip lemmas, values -/

theorem stripPre_pre : ∀ (pre X : List Char), stripPre pre (pre ++ X) = some X
  | [], _ => rfl
  | p :: ps, X => by
    rw [List.cons_append, stripPre, if_pos rfl]
    exact stripPre_pre ps X

theorem dumpInt_head (n : Int) :
    ∃ c t, dumpInt n = c :: t ∧ (c.toNat = 45 ∨ (48 ≤ c.toNat ∧ c.toNat ≤ 57)) := by
  by_cases hn : n < 0
  · exact ⟨'-', natDigits (-n).toNat, by rw [dumpInt, if_pos hn], Or.inl rfl⟩
  · obtain ⟨c, t, hct, hdig⟩ := natDigits_cons n.toNat
    exact ⟨c, t, by rw [dumpInt, if_neg hn, hct], Or.inr ((char_isDigit_iff c).mp hdig)⟩

theorem dumpJson_head (j : Json) :
    ∃ c t, dumpJson j = c :: t ∧
      (c.toNat = 110 ∨ c.toNat = 116 ∨ c.toNat = 102 ∨ c.toNat = 34 ∨ c.toNat = 91 ∨
        c.toNat = 123 ∨ c.toNat = 45 ∨ (48 ≤ c.toNat ∧ c.toNat ≤ 57)) := by
  cases j with
  | null => exact ⟨'n', _, rfl, Or.inl rfl⟩
  | bool b =>
    cases b with
    | true => exact ⟨'t', _, rfl, Or.inr (Or.inl rfl)⟩
    | false => exact ⟨'f', _, rfl, Or.inr (Or.inr (Or.inl rfl))⟩
  | num n =>
    obtain ⟨c, t, hct, hd⟩ := dumpInt_head n
    exact ⟨c, t, hct, Or.inr (Or.inr (Or.inr (Or.inr (Or.inr (Or.inr hd)))))⟩
  | str s => exact ⟨'\"', _, rfl, Or.inr (Or.inr (Or.inr (Or.inl rfl)))⟩
  | arr a =>
    cases a with
    | nil => exact ⟨'[', _, rfl, Or.inr (Or.inr (Or.inr (Or.inr (Or.inl rfl))))⟩
    | cons h t => exact ⟨'[', _, rfl, Or.inr (Or.inr (Or.inr (Or.inr (Or.inl rfl))))⟩
  | obj o =>
    cases o with
    | nil => exact ⟨lbrace, _, rfl, Or.inr (Or.inr (Or.inr (Or.inr (Or.inr (Or.inl rfl)))))⟩
    | cons k v t =>
      exact ⟨lbrace, _, rfl, Or.inr (Or.inr (Or.inr (Or.inr (Or.inr (Or.inl rfl)))))⟩

theorem parseArrRest_cons (fuel : Nat) (c : Char) (rest : List Char) :
    parseArrRest (fuel + 1) (c :: rest) =
      if c = ']' then some (.nil, rest)
      else if c = ',' then
        match rest with
        | ' ' :: rest2 =>
          match parseJson fuel rest2 with
          | some jp => (parseArrRest fuel jp.2).map (fun p => (.cons jp.1 p.1, p.2))
          | none => none
        | _ => none
      else none := rfl

theorem parseObjRest_cons (fuel : Nat) (c : Char) (rest : List Char) :
    parseObjRest (fuel + 1) (c :: rest) =
      if c = rbrace then some (.nil, rest)
      else if c = ',' then
        match rest with
        | ' ' :: '\"' :: rest2 =>
          match parseStrBody (rest2.length + 1) rest2 with
          | some kp =>
            match stripPre [':', ' '] kp.2 with
            | some rest4 =>
              match parseJson fuel rest4 with
              | some vp => (parseObjRest fuel vp.2).map (fun p => (.cons kp.1 vp.1 p.1, p.2))
              | none => none
            | none => none
          | none => none
        | _ => none
      else none := rfl

theorem parseJson_cons (fuel : Nat) (c : Char) (rest : List Char) :
    parseJson (fuel + 1) (c :: rest) =
      if c = 'n' then (stripPre ['u', 'l', 'l'] rest).map (fun r => (.null, r))
      else if c = 't' then (stripPre ['r', 'u', 'e'] rest).map (fun r => (.bool true, r))
      else if c = 'f' then (stripPre ['a', 'l', 's', 'e'] rest).map (fun r => (.bool false, r))
      else if c = '\"' then (parseStrBody (rest.length + 1) rest).map (fun p => (.str p.1, p.2))
      else if c = '[' then
        match rest with
        | [] => none
        | c2 :: rest2 =>
          if c2 = ']' then some (.arr .nil, rest2)
          else
            match parseJson fuel (c2 :: rest2) with
            | some jp => (parseArrRest fuel jp.2).map (fun p => (.arr (.cons jp.1 p.1), p.2))
            | none => none
      else if c = lbrace then
        match rest with
        | [] => none
        | c2 :: rest2 =>
          if c2 = rbrace then some (.obj .nil, rest2)
          else if c2 = '\"' then
            match parseStrBody (rest2.length + 1) rest2 with
            | some kp =>
              match stripPre [':', ' '] kp.2 with
              | some rest4 =>
                match parseJson fuel rest4 with
                | some vp =>
                    (parseObjRest fuel vp.2).map (fun p => (.obj (.cons kp.1 vp.1 p.1), p.2))
                | none => none
              | none => none
            | none => none
          else none
      else
        match parseInt (c :: rest) with
        | some p => some (.num p.1, p.2)
        | none => none := rfl

mutual

/-- Round trip of the serializer through the parser, for one value
followed by arbitrary residual input not starting with a digit. -/
theorem parseJson_dump :
    ∀ (j : Json) (fuel : Nat) (rest : List Char), jsize j ≤ fuel → digitStart rest = false →
      parseJson fuel (dumpJson j ++ rest) = some (j, rest)
  | .null, fuel, rest, hf, _ => by
    obtain ⟨f, rfl⟩ : ∃ f, fuel = f + 1 :=
      ⟨fuel - 1, by have := le_trans (jsize_pos Json.null) hf; omega⟩
    rfl
  | .bool true, fuel, rest, hf, _ => by
    obtain ⟨f, rfl⟩ : ∃ f, fuel = f + 1 :=
      ⟨fuel - 1, by have := le_trans (jsize_pos (Json.bool true)) hf; omega⟩
    rfl
  | .bool false, fuel, rest, hf, _ => by
    obtain ⟨f, rfl⟩ : ∃ f, fuel = f + 1 :=
      ⟨fuel - 1, by have := le_trans (jsize_pos (Json.bool false)) hf; omega⟩
    rfl
  | .num n, fuel, rest, hf, hr => by
    obtain ⟨f, rfl⟩ : ∃ f, fuel = f + 1 :=
      ⟨fuel - 1, by have := le_trans (jsize_pos (Json.num n)) hf; omega⟩
    obtain ⟨c, t, hct, hd⟩ := dumpInt_head n
    rw [show dumpJson (Json.num n) = dumpInt n from rfl, hct, List.cons_append, parseJson_cons]
    rw [if_neg (by rw [char_eq_iff_toNat, show ('n' : Char).toNat = 110 from rfl]; omega),
      if_neg (by rw [char_eq_iff_toNat, show ('t' : Char).toNat = 116 from rfl]; omega),
      if_neg (by rw [char_eq_iff_toNat, show ('f' : Char).toNat = 102 from rfl]; omega),
      if_neg (by rw [char_eq_iff_toNat, show ('\"' : Char).toNat = 34 from rfl]; omega),
      if_neg (by rw [char_eq_iff_toNat, show ('[' : Char).toNat = 91 from rfl]; omega),
      if_neg (by rw [char_eq_iff_toNat, show lbrace.toNat = 123 from rfl]; omega)]
    rw [← List.cons_append, ← hct, parseInt_dumpInt n rest hr]
  | .str s, fuel, rest, hf, _ => by
    obtain ⟨f, rfl⟩ : ∃ f, fuel = f + 1 :=
      ⟨fuel - 1, by have := le_trans (jsize_pos (Json.str s)) hf; omega⟩
    rw [show dumpJson (Json.str s) = '\"' :: (escapeString s ++ ['\"']) from rfl,
      List.cons_append, parseJson_cons]
    rw [if_neg (by decide), if_neg (by decide), if_neg (by decide), if_pos rfl]
    have hassoc : (escapeString s ++ ['\"']) ++ rest = escapeString s ++ '\"' :: rest := by simp
    rw [hassoc, parseStrBody_escape s _ rest
      (by have := length_le_escapeString s; simp only [List.length_append, List.length_cons]; omega)]
    rfl
  | .arr .nil, fuel, rest, hf, _ => by
    obtain ⟨f, rfl⟩ : ∃ f, fuel = f + 1 :=
      ⟨fuel - 1, by have := le_trans (jsize_pos (Json.arr JsonArr.nil)) hf; omega⟩
    rfl
  | .arr (.cons h t), fuel, rest, hf, _ => by
    have h1 := jsize_pos h
    have h2 := asize_pos t
    have hf2 : 1 + (jsize h + asize t) ≤ fuel := by
      rw [show 1 + (jsize h + asize t) = jsize (Json.arr (JsonArr.cons h t)) from rfl]
      exact hf
    obtain ⟨f, rfl⟩ : ∃ f, fuel = f + 1 := ⟨fuel - 1, by omega⟩
    obtain ⟨hc, ht, hhd, hp⟩ := dumpJson_head h
    rw [show dumpJson (Json.arr (JsonArr.cons h t)) =
      '[' :: (dumpJson h ++ dumpArrRest t ++ [']']) from rfl, List.cons_append, parseJson_cons]
    rw [if_neg (by decide), if_neg (by decide), if_neg (by decide), if_neg (by decide),
      if_pos rfl]
    have hre : (dumpJson h ++ dumpArrRest t ++ [']']) ++ rest =
        hc :: (ht ++ (dumpArrRest t ++ ']' :: rest)) := by rw [hhd]; simp
    rw [hre]
    show (if hc = ']' then some (Json.arr JsonArr.nil, ht ++ (dumpArrRest t ++ ']' :: rest))
      else
        match parseJson f (hc :: (ht ++ (dumpArrRest t ++ ']' :: rest))) with
        | some jp => (parseArrRest f jp.2).map (fun p => (Json.arr (JsonArr.cons jp.1 p.1), p.2))
        | none => none) = some (Json.arr (JsonArr.cons h t), rest)
    rw [if_neg (by rw [char_eq_iff_toNat, show (']' : Char).toNat = 93 from rfl]; omega)]
    rw [show hc :: (ht ++ (dumpArrRest t ++ ']' :: rest)) =
      dumpJson h ++ (dumpArrRest t ++ ']' :: rest) by rw [hhd]; simp]
    rw [parseJson_dump h f _ (by omega) (by cases t <;> rfl)]
    show (parseArrRest f (dumpArrRest t ++ ']' :: rest)).map
      (fun p => (Json.arr (JsonArr.cons h p.1), p.2)) = some (Json.arr (JsonArr.cons h t), rest)
    rw [parseArrRest_dump t f rest (by omega)]
    rfl
  | .obj .nil, fuel, rest, hf, _ => by
    obtain ⟨f, rfl⟩ : ∃ f, fuel = f + 1 :=
      ⟨fuel - 1, by have := le_trans (jsize_pos (Json.obj JsonObj.nil)) hf; omega⟩
    rfl
  | .obj (.cons k v t), fuel, rest, hf, _ => by
    have h1 := jsize_pos v
    have h2 := osize_pos t
    have hf2 : 1 + (jsize v + osize t) ≤ fuel := by
      rw [show 1 + (jsize v + osize t) = jsize (Json.obj (JsonObj.cons k v t)) from rfl]
      exact hf
    obtain ⟨f, rfl⟩ : ∃ f, fuel = f + 1 := ⟨fuel - 1, by omega⟩
    rw [show dumpJson (Json.obj (JsonObj.cons k v t)) =
      lbrace :: ('\"' :: (escapeString k ++ ['\"', ':', ' ']) ++ dumpJson v ++ dumpObjRest t ++
        [rbrace]) from rfl, List.cons_append, parseJson_cons]
    rw [if_neg (by decide), if_neg (by decide), if_neg (by decide), if_neg (by decide),
      if_neg (by decide), if_pos rfl]
    have hre : ('\"' :: (escapeString k ++ ['\"', ':', ' ']) ++ dumpJson v ++ dumpObjRest t ++
        [rbrace]) ++ rest =
        '\"' :: (escapeString k ++ '\"' :: ':' :: ' ' ::
          (dumpJson v ++ (dumpObjRest t ++ rbrace :: rest))) := by simp
    rw [hre]
    show (if ('\"' : Char) = rbrace then
        some (Json.obj JsonObj.nil, escapeString k ++ '\"' :: ':' :: ' ' ::
          (dumpJson v ++ (dumpObjRest t ++ rbrace :: rest)))
      else if ('\"' : Char) = '\"' then
        match parseStrBody ((escapeString k ++ '\"' :: ':' :: ' ' ::
            (dumpJson v ++ (dumpObjRest t ++ rbrace :: rest))).length + 1)
            (escapeString k ++ '\"' :: ':' :: ' ' ::
              (dumpJson v ++ (dumpObjRest t ++ rbrace :: rest))) with
        | some kp =>
          match stripPre [':', ' '] kp.2 with
          | some rest4 =>
            match parseJson f rest4 with
            | some vp =>
                (parseObjRest f vp.2).map (fun p => (Json.obj (JsonObj.cons kp.1 vp.1 p.1), p.2))
            | none => none
          | none => none
        | none => none
      else none) = some (Json.obj (JsonObj.cons k v t), rest)
    rw [if_neg (by decide), if_pos rfl]
    rw [parseStrBody_escape k _ _
      (by have := length_le_escapeString k; simp only [List.length_append, List.length_cons]; omega)]
    show (match stripPre [':', ' '] (':' :: ' ' ::
        (dumpJson v ++ (dumpObjRest t ++ rbrace :: rest))) with
      | some rest4 =>
        match parseJson f rest4 with
        | some vp =>
            (parseObjRest f vp.2).map (fun p => (Json.obj (JsonObj.cons k vp.1 p.1), p.2))
        | none => none
      | none => none) = some (Json.obj (JsonObj.cons k v t), rest)
    rw [show ':' :: ' ' :: (dumpJson v ++ (dumpObjRest t ++ rbrace :: rest)) =
      [':', ' '] ++ (dumpJson v ++ (dumpObjRest t ++ rbrace :: rest)) from rfl, stripPre_pre]
    show (match parseJson f (dumpJson v ++ (dumpObjRest t ++ rbrace :: rest)) with
      | some vp =>
          (parseObjRest f vp.2).map (fun p => (Json.obj (JsonObj.cons k vp.1 p.1), p.2))
      | none => none) = some (Json.obj (JsonObj.cons k v t), rest)
    rw [parseJson_dump v f _ (by omega) (by cases t <;> rfl)]
    show (parseObjRest f (dumpObjRest t ++ rbrace :: rest)).map
      (fun p => (Json.obj (JsonObj.cons k v p.1), p.2)) = some (Json.obj (JsonObj.cons k v t), rest)
    rw [parseObjRest_dump t f rest (by omega)]
    rfl

/-- Round trip of the serialized remaining array elements. -/
theorem parseArrRest_dump :
    ∀ (a : JsonArr) (fuel : Nat) (rest : List Char), asize a ≤ fuel →
      parseArrRest fuel (dumpArrRest a ++ ']' :: rest) = some (a, rest)
  | .nil, fuel, rest, hf => by
    obtain ⟨f, rfl⟩ : ∃ f, fuel = f + 1 :=
      ⟨fuel - 1, by have := le_trans (asize_pos JsonArr.nil) hf; omega⟩
    rfl
  | .cons h t, fuel, rest, hf => by
    have h1 := jsize_pos h
    have h2 := asize_pos t
    have hf2 : jsize h + asize t ≤ fuel := by
      rw [show jsize h + asize t = asize (JsonArr.cons h t) from rfl]
      exact hf
    obtain ⟨f, rfl⟩ : ∃ f, fuel = f + 1 := ⟨fuel - 1, by omega⟩
    rw [show dumpArrRest (JsonArr.cons h t) = ',' :: ' ' :: (dumpJson h ++ dumpArrRest t)
      from rfl]
    rw [show (',' :: ' ' :: (dumpJson h ++ dumpArrRest t)) ++ ']' :: rest =
      ',' :: ' ' :: (dumpJson h ++ (dumpArrRest t ++ ']' :: rest)) by simp]
    rw [parseArrRest_cons, if_neg (by decide), if_pos rfl]
    show (match parseJson f (dumpJson h ++ (dumpArrRest t ++ ']' :: rest)) with
      | some jp => (parseArrRest f jp.2).map (fun p => (JsonArr.cons jp.1 p.1, p.2))
      | none => none) = some (JsonArr.cons h t, rest)
    rw [parseJson_dump h f _ (by omega) (by cases t <;> rfl)]
    show (parseArrRest f (dumpArrRest t ++ ']' :: rest)).map
      (fun p => (JsonArr.cons h p.1, p.2)) = some (JsonArr.cons h t, rest)
    rw [parseArrRest_dump t f rest (by omega)]
    rfl

/-- Round trip of the serialized remaining object members. -/
theorem parseObjRest_dump :
    ∀ (o : JsonObj) (fuel : Nat) (rest : List Char), osize o ≤ fuel →
      parseObjRest fuel (dumpObjRest o ++ rbrace :: rest) = some (o, rest)
  | .nil, fuel, rest, hf => by
    obtain ⟨f, rfl⟩ : ∃ f, fuel = f + 1 :=
      ⟨fuel - 1, by have := le_trans (osize_pos JsonObj.nil) hf; omega⟩
    rw [show dumpObjRest JsonObj.nil ++ rbrace :: rest = rbrace :: rest from rfl,
      parseObjRest_cons, if_pos rfl]
  | .cons k v t, fuel, rest, hf => by
    have h1 := jsize_pos v
    have h2 := osize_pos t
    have hf2 : jsize v + osize t ≤ fuel := by
      rw [show jsize v + osize t = osize (JsonObj.cons k v t) from rfl]
      exact hf
    obtain ⟨f, rfl⟩ : ∃ f, fuel = f + 1 := ⟨fuel - 1, by omega⟩
    rw [show dumpObjRest (JsonObj.cons k v t) =
      ',' :: ' ' :: ('\"' :: (escapeString k ++ ['\"', ':', ' ']) ++ dumpJson v ++ dumpObjRest t)
      from rfl]
    rw [show (',' :: ' ' :: ('\"' :: (escapeString k ++ ['\"', ':', ' ']) ++ dumpJson v ++
        dumpObjRest t)) ++ rbrace :: rest =
      ',' :: ' ' :: '\"' :: (escapeString k ++ '\"' :: ':' :: ' ' ::
        (dumpJson v ++ (dumpObjRest t ++ rbrace :: rest))) by simp]
    rw [parseObjRest_cons,
      if_neg (by rw [char_eq_iff_toNat, show (',' : Char).toNat = 44 from rfl,
        show rbrace.toNat = 125 from rfl]; omega),
      if_pos rfl]
    show (match parseStrBody ((escapeString k ++ '\"' :: ':' :: ' ' ::
        (dumpJson v ++ (dumpObjRest t ++ rbrace :: rest))).length + 1)
        (escapeString k ++ '\"' :: ':' :: ' ' ::
          (dumpJson v ++ (dumpObjRest t ++ rbrace :: rest))) with
      | some kp =>
        match stripPre [':', ' '] kp.2 with
        | some rest4 =>
          match parseJson f rest4 with
          | some vp =>
              (parseObjRest f vp.2).map (fun p => (JsonObj.cons kp.1 vp.1 p.1, p.2))
          | none => none
        | none => none
      | none => none) = some (JsonObj.cons k v t, rest)
    rw [parseStrBody_escape k _ _
      (by have := length_le_escapeString k; simp only [List.length_append, List.length_cons]; omega)]
    show (match stripPre [':', ' '] (':' :: ' ' ::
        (dumpJson v ++ (dumpObjRest t ++ rbrace :: rest))) with
      | some rest4 =>
        match parseJson f rest4 with
        | some vp =>
            (parseObjRest f vp.2).map (fun p => (JsonObj.cons k vp.1 p.1, p.2))
        | none => none
      | none => none) = some (JsonObj.cons k v t, rest)
    rw [show ':' :: ' ' :: (dumpJson v ++ (dumpObjRest t ++ rbrace :: rest)) =
      [':', ' '] ++ (dumpJson v ++ (dumpObjRest t ++ rbrace :: rest)) from rfl, stripPre_pre]
    show (match parseJson f (dumpJson v ++ (dumpObjRest t ++ rbrace :: rest)) with
      | some vp =>
          (parseObjRest f vp.2).map (fun p => (JsonObj.cons k vp.1 p.1, p.2))
      | none => none) = some (JsonObj.cons k v t, rest)
    rw [parseJson_dump v f _ (by omega) (by cases t <;> rfl)]
    show (parseObjRest f (dumpObjRest t ++ rbrace :: rest)).map
      (fun p => (JsonObj.cons k v p.1, p.2)) = some (JsonObj.cons k v t, rest)
    rw [parseObjRest_dump t f rest (by omega)]
    rfl

end

mutual

/-- The node count of a value is at most its serialized length. -/
theorem jsize_le : ∀ j : Json, jsize j ≤ (dumpJson j).length
  | .null => by decide
  | .bool true => by decide
  | .bool false => by decide
  | .num n => by
    obtain ⟨c, t, hct, _⟩ := dumpInt_head n
    rw [show dumpJson (Json.num n) = dumpInt n from rfl, hct]
    show 1 ≤ (c :: t).length
    simp
  | .str s => by
    show 1 ≤ ('\"' :: (escapeString s ++ ['\"'])).length
    simp
  | .arr .nil => by decide
  | .arr (.cons h t) => by
    have ih1 := jsize_le h
    have ih2 := asize_le t
    show 1 + (jsize h + asize t) ≤ ('[' :: (dumpJson h ++ dumpArrRest t ++ [']'])).length
    simp only [List.length_cons, List.length_append, List.length_singleton]
    omega
  | .obj .nil => by decide
  | .obj (.cons k v t) => by
    have ih1 := jsize_le v
    have ih2 := osize_le t
    show 1 + (jsize v + osize t) ≤
      (lbrace :: ('\"' :: (escapeString k ++ ['\"', ':', ' ']) ++ dumpJson v ++ dumpObjRest t ++
        [rbrace])).length
    simp only [List.length_cons, List.length_append, List.length_singleton]
    omega

/-- The node count of remaining array elements is at most their
serialized length plus the closing bracket. -/
theorem asize_le : ∀ a : JsonArr, asize a ≤ (dumpArrRest a).length + 1
  | .nil => by decide
  | .cons h t => by
    have ih1 := jsize_le h
    have ih2 := asize_le t
    show jsize h + asize t ≤ (',' :: ' ' :: (dumpJson h ++ dumpArrRest t)).length + 1
    simp only [List.length_cons, List.length_append]
    omega

/-- The node count of remaining object members is at most their
serialized length plus the closing brace. -/
theorem osize_le : ∀ o : JsonObj, osize o ≤ (dumpObjRest o).length + 1
  | .nil => by decide
  | .cons k v t => by
    have ih1 := jsize_le v
    have ih2 := osize_le t
    show jsize v + osize t ≤
      (',' :: ' ' :: ('\"' :: (escapeString k ++ ['\"', ':', ' ']) ++ dumpJson v ++
        dumpObjRest t)).length + 1
    simp only [List.length_cons, List.length_append, List.length_singleton]
    omega

end

/-- Serialization round trip: deserializing a serialized value yields the
value back exactly. -/
theorem loads_dump (j : Json) : loads (dumpJson j) = some j := by
  rw [loads]
  have h := parseJson_dump j ((dumpJson j).length + 1) [] (by have := jsize_le j; omega) rfl
  rw [List.append_nil] at h
  rw [h]

/-! ## The event store and its operations

The log_entries table is an append-only sequence of rows in insertion
(id-ascending) order together with the next autoincrement primary key.
SQLAlchemy queries over it return rows in that insertion order. -/

/-- One stored row of the log_entries table.  extra_data holds the
serialized JSON blob or NULL. -/
structure LogEntry where
  id : Nat
  timestamp : Int
  level : String
  message : String
  source : String
  user_id : Option String
  extra_data : Option (List Char)
deriving DecidableEq

/-- The persistent state: the rows in insertion order and the next
autoincrement id. -/
structure Store where
  events : List LogEntry
  nextId : Nat
deriving DecidableEq

/-- A fresh database (SQLite autoincrement ids start at 1). -/
def Store.empty : Store := ⟨[], 1⟩

/-- The request body of POST /logs (pydantic model LogEntryCreate). -/
structure LogEntryCreate where
  level : String
  message : String
  source : String
  user_id : Option String
  extra_data : Option JsonObj

/-- Entry data handed to db.add before the store assigns id and
timestamp. -/
structure NewEntry where
  level : String
  message : String
  source : String
  user_id : Option String
  extra_data : Option (List Char)

/-- Store insert: db.add plus db.commit plus db.refresh assigns the
autoincrement primary key and the utcnow default timestamp, appends the
row, and returns the fully populated row. -/
def Store.insert (s : Store) (now : Int) (n : NewEntry) : Store × LogEntry :=
  let e : LogEntry :=
    ⟨s.nextId, now, n.level, n.message, n.source, n.user_id, n.extra_data⟩
  (⟨s.events ++ [e], s.nextId + 1⟩, e)

/-- Python truthiness gate on the optional extra_data dict in
create_log_entry: None and the empty dict are both falsy, so both store
NULL; any non-empty dict stores its json.dumps serialization. -/
def storedExtraData : Option JsonObj → Option (List Char)
  | none => none
  | some JsonObj.nil => none
  | some o => some (dumpJson (Json.obj o))

/-- POST /logs: create a log entry from the request body. -/
def create_log_entry (now : Int) (req : LogEntryCreate) (s : Store) : Store × LogEntry :=
  s.insert now ⟨req.level, req.message, req.source, req.user_id, storedExtraData req.extra_data⟩

/-- Python truthiness of an optional string: None and the empty string
are both falsy. -/
def pyTruthy : Option String → Bool
  | none => false
  | some s => !(s == "")

/-- Conjunction of the filters GET /logs applies: each of level and
source restricts the result only when its query parameter is truthy. -/
def matchesFilters (level source : Option String) (e : LogEntry) : Bool :=
  (if pyTruthy level then e.level == level.getD "" else true) &&
  (if pyTruthy source then e.source == source.getD "" else true)

/-- GET /logs: optional exact-match filtering, then offset skip and
limit, in insertion (id-ascending) order. -/
def get_logs (level source : Option String) (skip limit : Nat) (s : Store) : List LogEntry :=
  ((s.events.filter (matchesFilters level source)).drop skip).take limit

/-- One row of the analytics DataFrame (the five projected columns). -/
structure ActivityRow where
  id : Nat
  timestamp : Int
  level : String
  source : String
  message : String
deriving DecidableEq

/-- The GET /analytics response body. -/
structure AnalyticsResponse where
  total_logs : Nat
  logs_by_level : List (String × Nat)
  logs_by_source : List (String × Nat)
  recent_activity : List ActivityRow
deriving DecidableEq

/-- Projection of a stored row onto the analytics DataFrame columns. -/
def toRow (e : LogEntry) : ActivityRow := ⟨e.id, e.timestamp, e.level, e.source, e.message⟩

/-- Occurrence count of each distinct value: pandas value_counts
rendered to a mapping.  The spec fixes no key order for the mapping,
only the count of every present value, so the model lists keys in
first-occurrence order. -/
def value_counts (l : List String) : List (String × Nat) :=
  l.dedup.map (fun v => (v, l.count v))

/-- The last n elements of a list in unchanged order (DataFrame.tail). -/
def tailN (n : Nat) (l : List ActivityRow) : List ActivityRow := l.drop (l.length - n)

/-- Start instant of the trailing 24-hour recent-activity window. -/
def windowStart (now : Int) : Int := now - 24 * 3600

/-- GET /analytics evaluated at instant now: the empty-store fast path,
or the full scan with level and source histograms and the last ten
events of the 24-hour window in unchanged (insertion) order. -/
def get_analytics (now : Int) (s : Store) : AnalyticsResponse :=
  if s.events.isEmpty then ⟨0, [], [], []⟩
  else
    let df := s.events.map toRow
    ⟨df.length,
     value_counts (df.map (fun r => r.level)),
     value_counts (df.map (fun r => r.source)),
     tailN 10 (df.filter (fun r => windowStart now ≤ r.timestamp))⟩

/-- One row of the CSV export (the six projected columns; extra_data is
deliberately excluded). -/
structure ExportRow where
  id : Nat
  timestamp : Int
  level : String
  message : String
  source : String
  user_id : Option String
deriving DecidableEq

/-- Projection of a stored row onto the export columns. -/
def toExportRow (e : LogEntry) : ExportRow :=
  ⟨e.id, e.timestamp, e.level, e.message, e.source, e.user_id⟩

/-- The GET /export/csv result: the written rows and the reported
records_exported count. -/
structure ExportResult where
  rows : List ExportRow
  records_exported : Nat
deriving DecidableEq

/-- GET /export/csv: one row per stored event in insertion order. -/
def export_logs_csv (s : Store) : ExportResult :=
  let df := s.events.map toExportRow
  ⟨df, df.length⟩

/-- The dict key the webhook summary message references. -/
def typeKey : List Char := ['t', 'y', 'p', 'e']

/-- The default value data.get returns when the type key is absent. -/
def unknownPlaceholder : List Char := ['u', 'n', 'k', 'n', 'o', 'w', 'n']

/-- Lookup in a JSON object (Python dict access; dict keys are unique,
the model takes the first match). -/
def objGet : JsonObj → List Char → Option Json
  | JsonObj.nil, _ => none
  | JsonObj.cons k v t, key => if k = key then some v else objGet t key

/-- The log entry data the webhook background task synthesizes.  render
models the Python str() rendering the f-string applies to the value
data.get returns; it is how the message references the payload type. -/
def webhookNewEntry (render : Json → String) (data : JsonObj) : NewEntry :=
  { level := "INFO",
    message := "Webhook processed: " ++
      render ((objGet data typeKey).getD (Json.str unknownPlaceholder)),
    source := "webhook",
    user_id := none,
    extra_data := some (dumpJson (Json.obj data)) }

/-- The webhook background task process_webhook_data: builds the derived
entry and commits it; commitOk abstracts whether the commit raises, and
a raised exception is caught and only logged, leaving the store
unchanged. -/
def process_webhook_data (render : Json → String) (now : Int) (data : JsonObj)
    (commitOk : Bool) (s : Store) : Store :=
  if commitOk then (s.insert now (webhookNewEntry render data)).1 else s

/-- The acknowledgement body POST /external-api/webhook returns. -/
structure WebhookAck where
  status : String
  message : String
deriving DecidableEq

/-- The constant acknowledgement of handle_webhook. -/
def webhookAck : WebhookAck := ⟨"accepted", "Webhook data will be processed"⟩

/-- POST /external-api/webhook: enqueues the background task and returns
the acknowledgement immediately; the deferred task then runs against the
store. -/
def handle_webhook (render : Json → String) (now : Int) (data : JsonObj)
    (commitOk : Bool) (s : Store) : WebhookAck × Store :=
  (webhookAck, process_webhook_data render now data commitOk s)

/-- One public operation of the service with the inputs it needs. -/
inductive Operation where
  | create (now : Int) (req : LogEntryCreate)
  | listLogs (level source : Option String) (skip limit : Nat)
  | analytics (now : Int)
  | exportCsv
  | webhook (render : Json → String) (now : Int) (data : JsonObj) (commitOk : Bool)

/-- Effect of one public operation on the store; the read-only
operations return it unchanged. -/
def applyOp : Operation → Store → Store
  | .create now req, s => (create_log_entry now req s).1
  | .listLogs _ _ _ _, s => s
  | .analytics _, s => s
  | .exportCsv, s => s
  | .webhook render now data ok, s => process_webhook_data render now data ok s

/-- Fold a sequence of inserts over the store (both ingestion paths go
through Store.insert), collecting the assigned ids in order. -/
def insertAll (s : Store) : List (Int × NewEntry) → Store × List Nat
  | [] => (s, [])
  | (now, n) :: rest =>
    let r := s.insert now n
    let r2 := insertAll r.1 rest
    (r2.1, r.2.id :: r2.2)

/-! ## Supporting lemmas about the operations -/

/-- The counts of value_counts sum to the length of the counted list. -/
theorem sum_value_counts (l : List String) :
    ((value_counts l).map (fun p => p.2)).sum = l.length := by
  rw [value_counts, List.map_map]
  have hcomp : ((fun p : String × Nat => p.2) ∘ (fun v => (v, l.count v))) =
      fun v => l.count v := rfl
  rw [hcomp]
  have h1 : l.dedup.toFinset.sum (fun v => l.count v) =
      (l.dedup.map (fun v => l.count v)).sum := List.sum_toFinset _ l.nodup_dedup
  have h2 : l.dedup.toFinset = l.toFinset := by
    ext x
    simp
  rw [← h1, h2]
  exact List.sum_toFinset_count_eq_length l

/-- A filter with no truthy parameters keeps every row. -/
theorem filter_none_none (s : Store) :
    s.events.filter (matchesFilters none none) = s.events := by
  apply List.filter_eq_self.mpr
  intro a _
  rfl

/-- The ids assigned by a run of inserts are the consecutive range
starting at the store's next id. -/
theorem insertAll_ids :
    ∀ (reqs : List (Int × NewEntry)) (s : Store),
      (insertAll s reqs).2 = List.range' s.nextId reqs.length
  | [], _ => rfl
  | (now, n) :: rest, s => by
    show s.nextId :: (insertAll ⟨s.events ++ [_], s.nextId + 1⟩ rest).2 =
      List.range' s.nextId (rest.length + 1)
    rw [insertAll_ids rest _, List.range'_succ s.nextId rest.length 1]

/-- Inserting at an instant not before every stored timestamp preserves
the non-decreasing-timestamps invariant of the store (timestamps are
assigned from the clock at insert, so every reachable store satisfies
it). -/
theorem insert_preserves_sorted (s : Store) (now : Int) (n : NewEntry)
    (hs : s.events.Pairwise (fun a b => a.timestamp ≤ b.timestamp))
    (hnow : ∀ e ∈ s.events, e.timestamp ≤ now) :
    ((s.insert now n).1.events).Pairwise (fun a b => a.timestamp ≤ b.timestamp) := by
  show (s.events ++ [(⟨s.nextId, now, n.level, n.message, n.source, n.user_id,
    n.extra_data⟩ : LogEntry)]).Pairwise (fun a b => a.timestamp ≤ b.timestamp)
  rw [List.pairwise_append]
  refine ⟨hs, List.pairwise_singleton _ _, ?_⟩
  intro a ha b hb
  rw [List.mem_singleton] at hb
  subst hb
  exact hnow a ha

/-! ## The claims -/

/-- Claim C1: for every store state (with the store invariant that
timestamps are non-decreasing in insertion order, since the store
assigns them from the clock at insert) and every instant now, the
recent_activity sequence of the analytics operation never contains an
event with timestamp before now minus 24 hours, contains at most 10
events, and is in ascending-timestamp order. -/
theorem claim1_recent_activity_window (now : Int) (s : Store)
    (hsorted : s.events.Pairwise (fun a b => a.timestamp ≤ b.timestamp)) :
    (∀ r ∈ (get_analytics now s).recent_activity, ¬ r.timestamp < windowStart now) ∧
    (get_analytics now s).recent_activity.length ≤ 10 ∧
    (get_analytics now s).recent_activity.Pairwise (fun a b => a.timestamp ≤ b.timestamp) := by
  by_cases he : s.events.isEmpty
  · rw [get_analytics, if_pos he]
    exact ⟨fun r hr => absurd hr (List.not_mem_nil r), by simp, List.Pairwise.nil⟩
  · rw [get_analytics, if_neg he]
    refine ⟨?_, ?_, ?_⟩
    · intro r hr
      show ¬ r.timestamp < windowStart now
      have hr2 : r ∈ (s.events.map toRow).filter
          (fun r => decide (windowStart now ≤ r.timestamp)) := List.mem_of_mem_drop hr
      have hle := List.of_mem_filter hr2
      simp only [decide_eq_true_eq] at hle
      omega
    · show (tailN 10 ((s.events.map toRow).filter _)).length ≤ 10
      rw [tailN, List.length_drop]
      omega
    · show (tailN 10 ((s.events.map toRow).filter
        (fun r => decide (windowStart now ≤ r.timestamp)))).Pairwise
          (fun a b => a.timestamp ≤ b.timestamp)
      have h1 : (s.events.map toRow).Pairwise (fun a b => a.timestamp ≤ b.timestamp) :=
        List.pairwise_map.mpr hsorted
      have h2 := h1.filter (fun r => decide (windowStart now ≤ r.timestamp))
      exact h2.sublist (List.drop_sublist _ _)

/-- Claim C1 witness at a concrete sorted two-event store. -/
theorem claim1_recent_activity_window_witness :
    (([⟨1, 5, "INFO", "m1", "app", none, none⟩, ⟨2, 9, "ERROR", "m2", "db", none, none⟩] :
        List LogEntry).Pairwise (fun a b => a.timestamp ≤ b.timestamp)) ∧
    ((∀ r ∈ (get_analytics 10 ⟨[⟨1, 5, "INFO", "m1", "app", none, none⟩,
        ⟨2, 9, "ERROR", "m2", "db", none, none⟩], 3⟩).recent_activity,
        ¬ r.timestamp < windowStart 10) ∧
      (get_analytics 10 ⟨[⟨1, 5, "INFO", "m1", "app", none, none⟩,
        ⟨2, 9, "ERROR", "m2", "db", none, none⟩], 3⟩).recent_activity.length ≤ 10 ∧
      (get_analytics 10 ⟨[⟨1, 5, "INFO", "m1", "app", none, none⟩,
        ⟨2, 9, "ERROR", "m2", "db", none, none⟩], 3⟩).recent_activity.Pairwise
          (fun a b => a.timestamp ≤ b.timestamp)) :=
  ⟨by decide, claim1_recent_activity_window 10 _ (by decide)⟩

/-- Claim C2: with no filters, skip zero and limit N at most the total
count, get_logs returns the first N events in insertion order, and
re-querying with skip N returns the next N with no overlap and no gaps
(the two pages concatenate to the first two-N prefix). -/
theorem claim2_pagination (s : Store) (N : Nat) (hN : N ≤ s.events.length) :
    get_logs none none 0 N s = s.events.take N ∧
    get_logs none none N N s = (s.events.drop N).take N ∧
    get_logs none none 0 N s ++ get_logs none none N N s = s.events.take (N + N) := by
  refine ⟨?_, ?_, ?_⟩
  · rw [get_logs, filter_none_none, List.drop_zero]
  · rw [get_logs, filter_none_none]
  · rw [get_logs, filter_none_none, get_logs, filter_none_none, List.drop_zero,
      ← List.take_add]

/-- Claim C2 witness at a concrete two-event store with page size one. -/
theorem claim2_pagination_witness :
    1 ≤ (⟨[⟨1, 0, "INFO", "m1", "app", none, none⟩,
        ⟨2, 1, "ERROR", "m2", "db", none, none⟩], 3⟩ : Store).events.length ∧
    (get_logs none none 0 1 ⟨[⟨1, 0, "INFO", "m1", "app", none, none⟩,
        ⟨2, 1, "ERROR", "m2", "db", none, none⟩], 3⟩ =
      (⟨[⟨1, 0, "INFO", "m1", "app", none, none⟩,
        ⟨2, 1, "ERROR", "m2", "db", none, none⟩], 3⟩ : Store).events.take 1 ∧
     get_logs none none 1 1 ⟨[⟨1, 0, "INFO", "m1", "app", none, none⟩,
        ⟨2, 1, "ERROR", "m2", "db", none, none⟩], 3⟩ =
      ((⟨[⟨1, 0, "INFO", "m1", "app", none, none⟩,
        ⟨2, 1, "ERROR", "m2", "db", none, none⟩], 3⟩ : Store).events.drop 1).take 1 ∧
     get_logs none none 0 1 ⟨[⟨1, 0, "INFO", "m1", "app", none, none⟩,
        ⟨2, 1, "ERROR", "m2", "db", none, none⟩], 3⟩ ++
       get_logs none none 1 1 ⟨[⟨1, 0, "INFO", "m1", "app", none, none⟩,
        ⟨2, 1, "ERROR", "m2", "db", none, none⟩], 3⟩ =
      (⟨[⟨1, 0, "INFO", "m1", "app", none, none⟩,
        ⟨2, 1, "ERROR", "m2", "db", none, none⟩], 3⟩ : Store).events.take (1 + 1)) :=
  ⟨by decide, claim2_pagination _ 1 (by decide)⟩

/-- Claim C3: the analytics operation returns total_logs equal to the
number of stored events, and on every non-empty store the level counts
and the source counts each sum to that total. -/
theorem claim3_analytics_totals (now : Int) (s : Store) :
    (get_analytics now s).total_logs = s.events.length ∧
    (s.events ≠ [] →
      ((get_analytics now s).logs_by_level.map (fun p => p.2)).sum =
          (get_analytics now s).total_logs ∧
      ((get_analytics now s).logs_by_source.map (fun p => p.2)).sum =
          (get_analytics now s).total_logs) := by
  by_cases he : s.events.isEmpty
  · rw [get_analytics, if_pos he]
    rw [List.isEmpty_iff] at he
    exact ⟨by rw [he]; rfl, fun hne => absurd he hne⟩
  · rw [get_analytics, if_neg he]
    refine ⟨?_, fun _ => ⟨?_, ?_⟩⟩
    · show (s.events.map toRow).length = s.events.length
      rw [List.length_map]
    · show ((value_counts ((s.events.map toRow).map (fun r => r.level))).map
        (fun p => p.2)).sum = (s.events.map toRow).length
      rw [sum_value_counts, List.length_map, List.length_map]
    · show ((value_counts ((s.events.map toRow).map (fun r => r.source))).map
        (fun p => p.2)).sum = (s.events.map toRow).length
      rw [sum_value_counts, List.length_map, List.length_map]

/-- Claim C3 witness at a concrete non-empty store. -/
theorem claim3_analytics_totals_witness :
    (⟨[⟨1, 0, "INFO", "m1", "app", none, none⟩,
        ⟨2, 1, "INFO", "m2", "db", none, none⟩], 3⟩ : Store).events ≠ [] ∧
    ((get_analytics 0 ⟨[⟨1, 0, "INFO", "m1", "app", none, none⟩,
        ⟨2, 1, "INFO", "m2", "db", none, none⟩], 3⟩).logs_by_level.map (fun p => p.2)).sum =
      (get_analytics 0 ⟨[⟨1, 0, "INFO", "m1", "app", none, none⟩,
        ⟨2, 1, "INFO", "m2", "db", none, none⟩], 3⟩).total_logs ∧
    ((get_analytics 0 ⟨[⟨1, 0, "INFO", "m1", "app", none, none⟩,
        ⟨2, 1, "INFO", "m2", "db", none, none⟩], 3⟩).logs_by_source.map (fun p => p.2)).sum =
      (get_analytics 0 ⟨[⟨1, 0, "INFO", "m1", "app", none, none⟩,
        ⟨2, 1, "INFO", "m2", "db", none, none⟩], 3⟩).total_logs :=
  ⟨by decide,
    ((claim3_analytics_totals 0 _).2 (by decide)).1,
    ((claim3_analytics_totals 0 _).2 (by decide)).2⟩

/-- Claim C5: the export operation reports a record count equal to the
store's total event count, and every exported row's six fields equal the
corresponding stored event's fields (extra_data carries no column in the
export row type, so it is omitted). -/
theorem claim5_export_rows (s : Store) :
    (export_logs_csv s).records_exported = s.events.length ∧
    ∀ i : Nat,
      (export_logs_csv s).rows[i]?.map (fun r => r.id) = s.events[i]?.map (fun e => e.id) ∧
      (export_logs_csv s).rows[i]?.map (fun r => r.timestamp) =
        s.events[i]?.map (fun e => e.timestamp) ∧
      (export_logs_csv s).rows[i]?.map (fun r => r.level) = s.events[i]?.map (fun e => e.level) ∧
      (export_logs_csv s).rows[i]?.map (fun r => r.message) =
        s.events[i]?.map (fun e => e.message) ∧
      (export_logs_csv s).rows[i]?.map (fun r => r.source) =
        s.events[i]?.map (fun e => e.source) ∧
      (export_logs_csv s).rows[i]?.map (fun r => r.user_id) =
        s.events[i]?.map (fun e => e.user_id) := by
  constructor
  · show (s.events.map toExportRow).length = s.events.length
    rw [List.length_map]
  · intro i
    have hrows : (export_logs_csv s).rows = s.events.map toExportRow := rfl
    rw [hrows, List.getElem?_map]
    cases s.events[i]? with
    | none => exact ⟨rfl, rfl, rfl, rfl, rfl, rfl⟩
    | some e => exact ⟨rfl, rfl, rfl, rfl, rfl, rfl⟩

/-- Claim C7: the acknowledgement of the webhook operation is the same
fixed value whether the deferred task's commit succeeds or fails, no
error value is produced either way (the operations are total), and a
failing task leaves the store unchanged. -/
theorem claim7_webhook_errors_absorbed (render : Json → String) (now : Int) (data : JsonObj)
    (s : Store) :
    (∀ commitOk, (handle_webhook render now data commitOk s).1 = webhookAck) ∧
    (handle_webhook render now data false s).1 = (handle_webhook render now data true s).1 ∧
    (handle_webhook render now data false s).2 = s :=
  ⟨fun _ => rfl, rfl, rfl⟩

/-- Claim C8: the ids assigned by any sequence of inserts (both the
direct-ingest path and the webhook-derived path insert through
Store.insert) are strictly increasing in insertion order and pairwise
distinct, from any starting store. -/
theorem claim8_ids_strictly_increasing (s : Store) (reqs : List (Int × NewEntry)) :
    List.Pairwise (· < ·) (insertAll s reqs).2 ∧ (insertAll s reqs).2.Nodup := by
  rw [insertAll_ids]
  exact ⟨List.pairwise_lt_range' _ _, (List.pairwise_lt_range' _ _).nodup⟩

/-- Claim C9: every public operation leaves the previously stored events
unchanged — the old event sequence is a prefix of the new one, and every
previously stored row (its id and timestamp included) is read back
unchanged at its position. -/
theorem claim9_append_only (op : Operation) (s : Store) :
    s.events <+: (applyOp op s).events ∧
    ∀ i : Nat, i < s.events.length → (applyOp op s).events[i]? = s.events[i]? := by
  have hpre : s.events <+: (applyOp op s).events := by
    cases op with
    | create now req => exact List.prefix_append _ _
    | listLogs level source skip limit => exact List.prefix_refl _
    | analytics now => exact List.prefix_refl _
    | exportCsv => exact List.prefix_refl _
    | webhook render now data ok =>
      cases ok with
      | true => exact List.prefix_append _ _
      | false => exact List.prefix_refl _
  refine ⟨hpre, ?_⟩
  intro i hi
  obtain ⟨t, ht⟩ := hpre
  rw [← ht, List.getElem?_append_left hi]

/-- Claim C9 witness: a create operation on a concrete one-event store. -/
theorem claim9_append_only_witness :
    (0 : Nat) < (⟨[⟨1, 0, "INFO", "m1", "app", none, none⟩], 2⟩ : Store).events.length ∧
    (applyOp (Operation.create 5 ⟨"ERROR", "m2", "db", none, none⟩)
        ⟨[⟨1, 0, "INFO", "m1", "app", none, none⟩], 2⟩).events[0]? =
      (⟨[⟨1, 0, "INFO", "m1", "app", none, none⟩], 2⟩ : Store).events[0]? :=
  ⟨by decide,
    (claim9_append_only (Operation.create 5 ⟨"ERROR", "m2", "db", none, none⟩) _).2 0 (by decide)⟩

/-- Claim C10: a list query whose level filter is the empty string (or
whose source filter is the empty string) returns the same sequence as
the query with that filter absent — Python string truthiness makes the
empty string skip the restriction rather than exact-match it. -/
theorem claim10_empty_filter_no_restriction (level source : Option String) (skip limit : Nat)
    (s : Store) :
    get_logs (some "") source skip limit s = get_logs none source skip limit s ∧
    get_logs level (some "") skip limit s = get_logs level none skip limit s :=
  ⟨rfl, rfl⟩

/-- Claim C4 counterexample: a create request whose extra_data is the
empty mapping is a structured key-value mapping, yet the stored blob is
NULL (the Python truthiness gate treats the empty dict like None), so no
stored blob deserializes back to the empty mapping. -/
theorem claim4_extra_data_roundtrip_counterexample :
    ¬ ∃ blob,
      (create_log_entry 0 ⟨"INFO", "m", "app", none, some JsonObj.nil⟩
          Store.empty).2.extra_data = some blob ∧
        loads blob = some (Json.obj JsonObj.nil) := by
  rintro ⟨b, hb, _⟩
  exact Option.noConfusion hb

/-- Claim C4 (amended): for every create-event request whose extra_data
is a non-empty mapping, the stored blob is its serialization and
deserializes back to exactly the same mapping; an empty mapping, like an
absent one, is stored as NULL. -/
theorem claim4_extra_data_roundtrip_amended (now : Int) (req : LogEntryCreate) (s : Store)
    (k : List Char) (v : Json) (t : JsonObj)
    (h : req.extra_data = some (JsonObj.cons k v t)) :
    (create_log_entry now req s).2.extra_data =
      some (dumpJson (Json.obj (JsonObj.cons k v t))) ∧
    loads (dumpJson (Json.obj (JsonObj.cons k v t))) = some (Json.obj (JsonObj.cons k v t)) := by
  constructor
  · show storedExtraData req.extra_data = some (dumpJson (Json.obj (JsonObj.cons k v t)))
    rw [h]
    rfl
  · exact loads_dump _

/-- Claim C4 witness at a concrete one-key mapping. -/
theorem claim4_extra_data_roundtrip_witness :
    (⟨"INFO", "m", "app", none,
        some (JsonObj.cons ['k'] (Json.num 1) JsonObj.nil)⟩ : LogEntryCreate).extra_data =
      some (JsonObj.cons ['k'] (Json.num 1) JsonObj.nil) ∧
    ((create_log_entry 0 ⟨"INFO", "m", "app", none,
        some (JsonObj.cons ['k'] (Json.num 1) JsonObj.nil)⟩ Store.empty).2.extra_data =
      some (dumpJson (Json.obj (JsonObj.cons ['k'] (Json.num 1) JsonObj.nil))) ∧
    loads (dumpJson (Json.obj (JsonObj.cons ['k'] (Json.num 1) JsonObj.nil))) =
      some (Json.obj (JsonObj.cons ['k'] (Json.num 1) JsonObj.nil))) :=
  ⟨rfl, claim4_extra_data_roundtrip_amended 0 _ Store.empty ['k'] (Json.num 1) JsonObj.nil rfl⟩

/-- Claim C6: the event the webhook ingestion task derives from any
payload has level INFO, source webhook and no user id, its extra_data
blob is the payload's serialization and deserializes back to the full
original payload, the successful task appends exactly that event, and
the message is the fixed prefix followed by the rendering of the
payload's type value — the placeholder rendering when the key is absent,
the string itself when the value is a string.  render models the Python
str() the f-string applies. -/
theorem claim6_webhook_derived_event (render : Json → String) (now : Int) (data : JsonObj)
    (s : Store) (hrender : ∀ cs : List Char, render (Json.str cs) = String.mk cs) :
    ((s.insert now (webhookNewEntry render data)).2.level = "INFO" ∧
     (s.insert now (webhookNewEntry render data)).2.source = "webhook" ∧
     (s.insert now (webhookNewEntry render data)).2.user_id = none) ∧
    (s.insert now (webhookNewEntry render data)).2.extra_data =
      some (dumpJson (Json.obj data)) ∧
    loads (dumpJson (Json.obj data)) = some (Json.obj data) ∧
    (process_webhook_data render now data true s).events =
      s.events ++ [(s.insert now (webhookNewEntry render data)).2] ∧
    (objGet data typeKey = none →
      (s.insert now (webhookNewEntry render data)).2.message = "Webhook processed: unknown") ∧
    (∀ cs : List Char, objGet data typeKey = some (Json.str cs) →
      (s.insert now (webhookNewEntry render data)).2.message =
        "Webhook processed: " ++ String.mk cs) := by
  refine ⟨⟨rfl, rfl, rfl⟩, rfl, loads_dump _, rfl, ?_, ?_⟩
  · intro habs
    show "Webhook processed: " ++
      render ((objGet data typeKey).getD (Json.str unknownPlaceholder)) =
      "Webhook processed: unknown"
    rw [habs]
    show "Webhook processed: " ++ render (Json.str unknownPlaceholder) =
      "Webhook processed: unknown"
    rw [hrender]
    rfl
  · intro cs hty
    show "Webhook processed: " ++
      render ((objGet data typeKey).getD (Json.str unknownPlaceholder)) =
      "Webhook processed: " ++ String.mk cs
    rw [hty]
    show "Webhook processed: " ++ render (Json.str cs) = "Webhook processed: " ++ String.mk cs
    rw [hrender]

/-- A concrete rendering satisfying the str() assumption, for the claim
C6 witness. -/
def renderStr : Json → String
  | Json.str cs => String.mk cs
  | _ => ""

/-- Claim C6 witness at a concrete payload with a string type field. -/
theorem claim6_webhook_derived_event_witness :
    (∀ cs : List Char, renderStr (Json.str cs) = String.mk cs) ∧
    (((Store.empty.insert 0 (webhookNewEntry renderStr
        (JsonObj.cons ['t', 'y', 'p', 'e'] (Json.str ['u', 'p']) JsonObj.nil))).2.level = "INFO" ∧
      (Store.empty.insert 0 (webhookNewEntry renderStr
        (JsonObj.cons ['t', 'y', 'p', 'e'] (Json.str ['u', 'p']) JsonObj.nil))).2.source =
        "webhook" ∧
      (Store.empty.insert 0 (webhookNewEntry renderStr
        (JsonObj.cons ['t', 'y', 'p', 'e'] (Json.str ['u', 'p']) JsonObj.nil))).2.user_id =
        none) ∧
     (Store.empty.insert 0 (webhookNewEntry renderStr
        (JsonObj.cons ['t', 'y', 'p', 'e'] (Json.str ['u', 'p']) JsonObj.nil))).2.extra_data =
      some (dumpJson (Json.obj
        (JsonObj.cons ['t', 'y', 'p', 'e'] (Json.str ['u', 'p']) JsonObj.nil))) ∧
     loads (dumpJson (Json.obj
        (JsonObj.cons ['t', 'y', 'p', 'e'] (Json.str ['u', 'p']) JsonObj.nil))) =
      some (Json.obj (JsonObj.cons ['t', 'y', 'p', 'e'] (Json.str ['u', 'p']) JsonObj.nil)) ∧
     (process_webhook_data renderStr 0
        (JsonObj.cons ['t', 'y', 'p', 'e'] (Json.str ['u', 'p']) JsonObj.nil) true
        Store.empty).events =
      Store.empty.events ++ [(Store.empty.insert 0 (webhookNewEntry renderStr
        (JsonObj.cons ['t', 'y', 'p', 'e'] (Json.str ['u', 'p']) JsonObj.nil))).2] ∧
     (objGet (JsonObj.cons ['t', 'y', 'p', 'e'] (Json.str ['u', 'p']) JsonObj.nil) typeKey =
        none →
      (Store.empty.insert 0 (webhookNewEntry renderStr
        (JsonObj.cons ['t', 'y', 'p', 'e'] (Json.str ['u', 'p']) JsonObj.nil))).2.message =
        "Webhook processed: unknown") ∧
     (∀ cs : List Char,
        objGet (JsonObj.cons ['t', 'y', 'p', 'e'] (Json.str ['u', 'p']) JsonObj.nil) typeKey =
          some (Json.str cs) →
        (Store.empty.insert 0 (webhookNewEntry renderStr
          (JsonObj.cons ['t', 'y', 'p', 'e'] (Json.str ['u', 'p']) JsonObj.nil))).2.message =
          "Webhook processed: " ++ String.mk cs)) :=
  ⟨fun _ => rfl,
    claim6_webhook_derived_event renderStr 0
      (JsonObj.cons ['t', 'y', 'p', 'e'] (Json.str ['u', 'p']) JsonObj.nil)
      Store.empty (fun _ => rfl)⟩

end LogBuddy
